import Mathlib

/-!
Verification development for the CRDC DataHub excerpt: the STS permissible-value
puller (`src/pv_puller_v2.py`) and the manifest file-name validator (specified by
`src/unit_test/test_file_validator.py`; the implementation file is not part of the
excerpt, so it is modelled from the specification).

The Python code is shallowly embedded: dictionaries become structures with
`Option` fields (`none` = key absent or value `None`), Python truthiness of a
string is `s ≠ ""`, exceptions become `Except PyErr`, and the mutable dedup
sets become insertion-ordered duplicate-free lists.
-/

/-- Python exception classes that the embedded code can raise.
`typeError` models calling `re.match` on `None`; `attributeError` models
calling `.group()` on a failed match or `.strip()` on a non-string;
`exception` models `raise Exception(msg)`. -/
inductive PyErr where
  | typeError
  | attributeError
  | exception (msg : String)
deriving DecidableEq, Repr

/-- Decidable equality for `Except`, so that concrete runs of the embedded
code can be checked by `decide`. -/
instance {ε α : Type} [DecidableEq ε] [DecidableEq α] : DecidableEq (Except ε α)
  | .error e1, .error e2 =>
    if h : e1 = e2 then isTrue (by rw [h]) else isFalse (fun hc => h (by injection hc))
  | .error _, .ok _ => isFalse (fun hc => Except.noConfusion hc)
  | .ok _, .error _ => isFalse (fun hc => Except.noConfusion hc)
  | .ok a1, .ok a2 =>
    if h : a1 = a2 then isTrue (by rw [h]) else isFalse (fun hc => h (by injection hc))

/-- A Python value stored in a `"value"` field of a permissible-value entry:
either a string or a non-string (modelled as an integer, enough to express the
`isinstance(s, str)` branches of the source). -/
inductive PyVal where
  | str (s : String)
  | int (n : Int)
deriving DecidableEq, Repr

/-- Python truthiness of a string: `bool(s)` is `False` exactly for `""`. -/
def strTruthy (s : String) : Bool :=
  if s = "" then false else true

/-- Python truthiness of a `PyVal`. -/
def pyTruthy : PyVal → Bool
  | .str s => strTruthy s
  | .int n => if n = 0 then false else true

/-- One nested permissible-value entry of a raw STS record: the fields
`"value"`, `"synonyms"` and `"ncit_concept_code"` read by the source. -/
structure PVEntry where
  value : Option PyVal := none
  synonyms : Option (List String) := none
  conceptCode : Option String := none
deriving DecidableEq, Repr

/-- A raw term record returned by the STS API, with the four fields the source
reads: `PROPERTY`, `MODEL`, `VERSION` and `CDE_PV_NAME` (`"permissibleValues"`). -/
structure STSRecord where
  property : Option String := none
  model : Option String := none
  version : Option String := none
  permissibleValues : Option (List PVEntry) := none
deriving DecidableEq, Repr

/-- The record built by `compose_property_record`. -/
structure PropertyRecord where
  property : Option String
  model : Option String
  version : Option String
  permissibleValues : Option (List PyVal)
deriving DecidableEq, Repr

/-- A synonym record key: `(synonym, pv_item.get(NCIT_VALUE))`. -/
abbrev SynPair := String × Option PyVal

/-- A concept-code record key: `(model, property_name, value, concept_code)`. -/
abbrev CCTuple := Option String × Option String × Option PyVal × String

/-- The dedup key of `process_sts_property_pv`:
`(property_name, model, version)` after normalization. -/
abbrev PropKey := Option String × Option String × String

/-- The filter of line 140: `item.get(PROPERTY) and item.get(PROPERTY) != 'null'`. -/
def usableProperty (r : STSRecord) : Bool :=
  match r.property with
  | some s => strTruthy s && (if s = "null" then false else true)
  | none => false

/-- Line 146: `item.get(MODEL) if item.get(MODEL) and item.get(MODEL) != 'null' else None`. -/
def normModel : Option String → Option String
  | some s => if strTruthy s && (if s = "null" then false else true) then some s else none
  | none => none

/-- The match of `re.match(r'[\d.]+', s)`: the longest prefix of digits and
dots (the Python regex class `[\d.]` restricted to ASCII digits). Empty means
the regex did not match. -/
def leadingNumDot (s : String) : String :=
  String.mk (s.data.takeWhile fun c => c.isDigit || c == '.')

/-- Lines 147-148 of `process_sts_property_pv`: normalize the version for the
dedup key. The raw value is first replaced by `None` when absent, falsy or the
sentinel `"null"`; then `re.match(r'[\d.]+', version).group()` is applied
unconditionally, so a `None` version raises `TypeError` and a version with no
digits-and-dots prefix raises `AttributeError` (from `.group()` on `None`). -/
def keyVersion : Option String → Except PyErr String
  | none => .error .typeError
  | some s =>
    if s = "" ∨ s = "null" then .error .typeError
    else if leadingNumDot s = "" then .error .attributeError
    else .ok (leadingNumDot s)

/-- Line 192 of `compose_property_record`: same regex, but guarded, so an
absent/falsy/`"null"` version becomes `None` instead of raising; a non-matching
version still raises `AttributeError`. -/
def composeVersion : Option String → Except PyErr (Option String)
  | none => .ok none
  | some s =>
    if s = "" ∨ s = "null" then .ok none
    else if leadingNumDot s = "" then .error .attributeError
    else .ok (some (leadingNumDot s))

/-- The values collected by the comprehension of line 175:
`[item[NCIT_VALUE] for item in property_pv_list if NCIT_VALUE in item and item[NCIT_VALUE] is not None]`. -/
def collectedVals (entries : List PVEntry) : List PyVal :=
  entries.filterMap (·.value)

/-- Truthiness of an entry's `"value"` field, as tested by
`any(item.get(NCIT_VALUE) for item in property_pv_list)`. -/
def entryTruthyVal (e : PVEntry) : Bool :=
  match e.value with
  | some v => pyTruthy v
  | none => false

/-- Line 176: a collected value that is a string and starts with `http:` or `https:`. -/
def isHttpStr : PyVal → Bool
  | .str s => "http:".data.isPrefixOf s.data || "https:".data.isPrefixOf s.data
  | .int _ => false

/-- Python `str.strip()`, operating on the character list. -/
def pyStrip (s : String) : String :=
  String.mk (((s.data.dropWhile Char.isWhitespace).reverse.dropWhile Char.isWhitespace).reverse)

/-- Line 181: `[item.strip() for item in pv_list]`. Calling `.strip()` on a
non-string raises `AttributeError`. -/
def stripAll : List PyVal → Except PyErr (List PyVal)
  | [] => .ok []
  | .str s :: rest =>
    match stripAll rest with
    | .ok l => .ok (.str (pyStrip s) :: l)
    | .error e => .error e
  | .int _ :: _ => .error .attributeError

/-- `extract_pv_list` (lines 167-183). The first conditional block (lines
172-173) only fires when the first entry's value is truthy, which implies the
second block's `any` condition, so the translation keeps the dead branch in
the final `else`. In the live branch: collect the non-`None` values, discard
the whole list if any is a URL string, and strip each element when the first
collected value is a string. -/
def extract_pv_list : Option (List PVEntry) → Except PyErr (Option (List PyVal))
  | none => .ok none
  | some entries =>
    if entries.any entryTruthyVal then
      if (collectedVals entries).any isHttpStr then .ok none
      else
        match collectedVals entries with
        | [] => .ok (some [])
        | .str s :: rest =>
          match stripAll (.str s :: rest) with
          | .ok l => .ok (some l)
          | .error e => .error e
        | .int n :: rest => .ok (some (.int n :: rest))
    else
      match entries with
      | e :: rest => if entryTruthyVal e then .ok (some (collectedVals (e :: rest))) else .ok none
      | [] => .ok none

/-- `compose_property_record` (lines 185-195). The dict literal evaluates the
`VERSION` value before the `CDE_PERMISSIVE_VALUES` value, so a version fault
precedes an `extract_pv_list` fault. -/
def compose_property_record (item : STSRecord) : Except PyErr PropertyRecord :=
  match composeVersion item.version with
  | .error e => .error e
  | .ok ver =>
    match extract_pv_list item.permissibleValues with
    | .error e => .error e
    | .ok pvs => .ok ⟨item.property, item.model, ver, pvs⟩

/-- Insert into a Python set modelled as an insertion-ordered list without
duplicates. -/
def setInsert {α : Type} [DecidableEq α] (acc : List α) (x : α) : List α :=
  if x ∈ acc then acc else acc ++ [x]

/-- Insert each element of `todo` in order. -/
def setInsertAll {α : Type} [DecidableEq α] (acc : List α) : List α → List α
  | [] => acc
  | x :: xs => setInsertAll (setInsert acc x) xs

/-- The `(synonym, value)` pairs generated by the loops of
`compose_synonym_record` (lines 201-211), in generation order: for each entry
whose `synonyms` field is truthy, one pair per truthy synonym. -/
def pairsOfEntries : List PVEntry → List SynPair
  | [] => []
  | e :: rest =>
    (match e.synonyms with
     | some ss => if ss.isEmpty then [] else (ss.filter strTruthy).map fun syn => (syn, e.value)
     | none => []) ++ pairsOfEntries rest

/-- The synonym pairs a record contributes when `compose_synonym_record` runs on it. -/
def synonymPairsOf (item : STSRecord) : List SynPair :=
  match item.permissibleValues with
  | some entries => pairsOfEntries entries
  | none => []

/-- `compose_synonym_record` (lines 197-212): add each generated pair to the
shared synonym set unless already present. -/
def compose_synonym_record (item : STSRecord) (synonymSet : List SynPair) : List SynPair :=
  setInsertAll synonymSet (synonymPairsOf item)

/-- The `(model, property, value, concept_code)` tuples generated by
`compose_concept_code_record` (lines 222-230): one per entry with a truthy
concept code; `model` and `property` are taken raw from the record. -/
def ccTuplesOfEntries (model property : Option String) : List PVEntry → List CCTuple
  | [] => []
  | e :: rest =>
    (match e.conceptCode with
     | some cc => if strTruthy cc then [(model, property, e.value, cc)] else []
     | none => []) ++ ccTuplesOfEntries model property rest

/-- The concept-code tuples a record contributes. -/
def conceptTuplesOf (item : STSRecord) : List CCTuple :=
  match item.permissibleValues with
  | some entries => ccTuplesOfEntries item.model item.property entries
  | none => []

/-- `compose_concept_code_record` (lines 214-231). -/
def compose_concept_code_record (item : STSRecord) (conceptCodeSet : List CCTuple) : List CCTuple :=
  setInsertAll conceptCodeSet (conceptTuplesOf item)

/-- Line 158 guard: synonyms are extracted only when the FIRST entry of
`item.get(CDE_PV_NAME)` has a truthy `synonyms` field. -/
def synGuard (item : STSRecord) : Bool :=
  match item.permissibleValues with
  | some (e :: _) =>
    match e.synonyms with
    | some ss => !ss.isEmpty
    | none => false
  | some [] => false
  | none => false

/-- Line 162 guard: concept codes are extracted only when the FIRST entry has
a truthy `ncit_concept_code` field. -/
def ccGuard (item : STSRecord) : Bool :=
  match item.permissibleValues with
  | some (e :: _) =>
    match e.conceptCode with
    | some cc => strTruthy cc
    | none => false
  | some [] => false
  | none => false

/-- The mutable state of the loop of `process_sts_property_pv`. -/
structure ProcState where
  propertySet : List PropKey
  propertyRecords : List PropertyRecord
  synonymSet : List SynPair
  conceptCodeSet : List CCTuple
deriving DecidableEq, Repr

/-- One iteration of the loop of `process_sts_property_pv` (lines 144-163):
compute the dedup key (which can raise), skip the item if the key was seen,
otherwise record the key, compose and append the property record, and - unless
`cde_only` - run the synonym and concept-code extraction behind their
first-entry guards. -/
def procStep (cdeOnly : Bool) (st : ProcState) (item : STSRecord) : Except PyErr ProcState :=
  match keyVersion item.version with
  | .error e => .error e
  | .ok ver =>
    if (item.property, normModel item.model, ver) ∈ st.propertySet then .ok st
    else
      match compose_property_record item with
      | .error e => .error e
      | .ok precord =>
        if cdeOnly then
          .ok { st with
                propertySet := st.propertySet ++ [(item.property, normModel item.model, ver)]
                propertyRecords := st.propertyRecords ++ [precord] }
        else
          .ok { propertySet := st.propertySet ++ [(item.property, normModel item.model, ver)]
                propertyRecords := st.propertyRecords ++ [precord]
                synonymSet :=
                  if synGuard item then compose_synonym_record item st.synonymSet
                  else st.synonymSet
                conceptCodeSet :=
                  if ccGuard item then compose_concept_code_record item st.conceptCodeSet
                  else st.conceptCodeSet }

/-- The whole loop. -/
def procAll (cdeOnly : Bool) (st : ProcState) : List STSRecord → Except PyErr ProcState
  | [] => .ok st
  | item :: rest =>
    match procStep cdeOnly st item with
    | .error e => .error e
    | .ok st1 => procAll cdeOnly st1 rest

/-- The result triple of the extraction: each component is `None` or a
collection (`property_records, synonym_set, concept_code_set`). -/
abbrev PullerOutput :=
  Option (List PropertyRecord) × Option (List SynPair) × Option (List CCTuple)

/-- Intermediate decidability instances, registered so that instance search
on the nested output type stays small. -/
instance : DecidableEq (List CCTuple) := inferInstance

instance : DecidableEq (Option (List CCTuple)) := inferInstance

instance : DecidableEq (Option (List SynPair)) := inferInstance

instance : DecidableEq (Option (List PropertyRecord)) := inferInstance

instance : DecidableEq PullerOutput := inferInstance

/-- `process_sts_property_pv` (lines 128-165): return three `None`s when the
input is empty or no record passes the property filter, otherwise run the loop
over the filtered list starting from empty sets. -/
def process_sts_property_pv (stsResults : List STSRecord) (cdeOnly : Bool) :
    Except PyErr PullerOutput :=
  if stsResults.isEmpty then .ok (none, none, none)
  else if (stsResults.filter usableProperty).isEmpty then .ok (none, none, none)
  else
    match procAll cdeOnly ⟨[], [], [], []⟩ (stsResults.filter usableProperty) with
    | .error e => .error e
    | .ok st => .ok (some st.propertyRecords, some st.synonymSet, some st.conceptCodeSet)

/-- The flattening loop of lines 116-119: concatenate the non-`None` per-URL
result lists. -/
def flattenResults (apiResults : List (Option (List STSRecord))) : List STSRecord :=
  apiResults.foldl (fun acc o => match o with | some l => acc ++ l | none => acc) []

/-- `retrieveAllPropertyViaAPI` (lines 102-125), with the API client's answer
(one optional record list per configured model URL) passed as a parameter.
An empty model list raises `Exception("No model configured for pulling property PVs.")`
before any request is made; an empty flattened result returns three `None`s. -/
def retrieveAllPropertyViaAPI (pvModels : List String)
    (apiResults : List (Option (List STSRecord))) : Except PyErr PullerOutput :=
  if pvModels.isEmpty then .error (.exception "No model configured for pulling property PVs.")
  else if (flattenResults apiResults).isEmpty then .ok (none, none, none)
  else process_sts_property_pv (flattenResults apiResults) false

/-- Log levels of the Python logger as used by the puller. `log.exception`
logs at error level. -/
inductive LogLevel where
  | info
  | error
  | critical
deriving DecidableEq, Repr

/-- One logged line. -/
structure LogEntry where
  level : LogLevel
  msg : String
deriving DecidableEq, Repr

/-- The storage side effects of the pull, in call order. -/
inductive StorageCall where
  | upsertPropertyPv (records : List PropertyRecord)
  | insertSynonyms (records : List SynPair)
  | insertConceptCodes (records : List CCTuple)
deriving DecidableEq, Repr

/-- The replies the opaque MongoDB DAO gives to the three storage calls. -/
structure DaoBehavior where
  upsertPropertyPvResult : Bool × String
  insertSynonymsResult : Option Unit
  insertConceptCodesResult : Option Unit
deriving DecidableEq, Repr

/-- The message the logger renders for a raised exception. -/
def pyErrMsg : PyErr → String
  | .typeError => "TypeError"
  | .attributeError => "AttributeError"
  | .exception m => m

/-- The emptiness test `if not records or len(records) == 0` applied to an
optional collection. -/
def emptyOpt {α : Type} : Option (List α) → Bool
  | none => true
  | some l => l.isEmpty

/-- The `try` body of `PVPullerV2.pull_property_pv_synonym_concept_codes`
(lines 70-97), given the already-retrieved triple: return early (with an info
log) whenever a record set is empty; otherwise issue the storage call, log the
outcome, and continue. Note that a failed upsert is logged but does NOT return. -/
def pullBody (retrieved : Except PyErr PullerOutput) (dao : DaoBehavior) :
    Except PyErr (List StorageCall × List LogEntry) :=
  match retrieved with
  | .error e => .error e
  | .ok (propsOpt, synsOpt, ccsOpt) =>
    if emptyOpt propsOpt then .ok ([], [⟨LogLevel.info, "No property found!"⟩])
    else
      let precs := propsOpt.getD []
      let n1 := precs.length
      let msg := dao.upsertPropertyPvResult.2
      let log1 := [(⟨LogLevel.info, s!"{n1} unique property are retrieved!"⟩ : LogEntry)] ++
        (if dao.upsertPropertyPvResult.1 then
          [(⟨LogLevel.info, "Property PV are pulled and save successfully!"⟩ : LogEntry)]
        else
          [(⟨LogLevel.error, s!"Failed to pull and save Property PV! {msg}"⟩ : LogEntry)])
      let calls1 := [StorageCall.upsertPropertyPv precs]
      if emptyOpt synsOpt then .ok (calls1, log1 ++ [⟨LogLevel.info, "No synonym found!"⟩])
      else
        let srecs := synsOpt.getD []
        let n2 := srecs.length
        let log2 := log1 ++ [(⟨LogLevel.info, s!"{n2} unique synonyms are retrieved!"⟩ : LogEntry)] ++
          (if dao.insertSynonymsResult.isSome then
            [(⟨LogLevel.info, "Property Synonyms are pulled and save successfully!"⟩ : LogEntry)]
          else [])
        let calls2 := calls1 ++ [StorageCall.insertSynonyms srecs]
        if emptyOpt ccsOpt then .ok (calls2, log2 ++ [⟨LogLevel.info, "No concept code found!"⟩])
        else
          let crecs := ccsOpt.getD []
          let n3 := crecs.length
          let log3 := log2 ++
            [(⟨LogLevel.info, s!"{n3} unique concept codes are retrieved!"⟩ : LogEntry)] ++
            (if dao.insertConceptCodesResult.isSome then
              [(⟨LogLevel.info, "Property Concept Codes are pulled and save successfully!"⟩ : LogEntry)]
            else []) ++
            [(⟨LogLevel.info, "All property PVs, Synonyms and Concept Codes are pulled and saved successfully!"⟩ : LogEntry)]
          .ok (calls2 ++ [StorageCall.insertConceptCodes crecs], log3)

/-- `PVPullerV2.pull_property_pv_synonym_concept_codes`: the body above behind
`except Exception` (lines 98-100), which catches ANY exception (including the
"No model configured" one raised by `retrieveAllPropertyViaAPI`) and logs it
twice via `log.exception`, i.e. at error level. The method therefore never
propagates an exception to its caller. -/
def pull_property_pv_synonym_concept_codes (pvModels : List String)
    (apiResults : List (Option (List STSRecord))) (dao : DaoBehavior) :
    List StorageCall × List LogEntry :=
  match pullBody (retrieveAllPropertyViaAPI pvModels apiResults) dao with
  | .ok r => r
  | .error e => ([], [⟨LogLevel.error, pyErrMsg e⟩, ⟨LogLevel.error, "Failed to retrieve CDE PVs."⟩])

/-- `pull_pv_lists_v2` (lines 22-44): calls the method above inside
`try ... except Exception as e: log.critical(e); log.critical(...)`. Because the
method already catches every exception itself, the outer handler is
unreachable and the entry point simply returns the method's calls and logs. -/
def pull_pv_lists_v2 (pvModels : List String)
    (apiResults : List (Option (List STSRecord))) (dao : DaoBehavior) :
    List StorageCall × List LogEntry :=
  pull_property_pv_synonym_concept_codes pvModels apiResults dao

/-!
Section: manifest file-name validator.

`file_validator.py` itself is not part of the excerpt; only its unit tests
(`src/unit_test/test_file_validator.py`) are. The validator is therefore
modelled from the specification, consistent with every unit test. File names
are modelled as lists of Unicode code points so that the encoding-validity
check (which rejects unpaired surrogates) is expressible.
-/

/-- A Unicode code point of a file name (`Nat`, so that invalid code points
such as unpaired surrogates are representable). -/
abbrev CodePoint := Nat

/-- Modelled from the spec: one parsed manifest row with its file-name field
and md5-checksum field (the configurable field names are abstracted away). -/
structure ManifestRow where
  fileName : List CodePoint
  md5sum : String
deriving DecidableEq, Repr

/-- Whitespace code points stripped by the empty-name check. -/
def isWsCp (c : CodePoint) : Bool :=
  c = 32 || c = 9 || c = 10 || c = 13 || c = 11 || c = 12

/-- Strip surrounding whitespace from a file name. -/
def stripName (l : List CodePoint) : List CodePoint :=
  ((l.dropWhile isWsCp).reverse.dropWhile isWsCp).reverse

/-- A code point representable in UTF-8: a Unicode scalar value (not a
surrogate, not above U+10FFFF). -/
def isValidScalar (c : CodePoint) : Bool :=
  decide (c ≤ 1114111 ∧ ¬(55296 ≤ c ∧ c ≤ 57343))

/-- The five violation categories reported by the validator. -/
inductive ViolKind where
  | emptyName
  | invalidEncoding
  | absolutePath
  | reservedChar
  | notUnique
deriving DecidableEq, Repr

/-- One logged error entry: the violated rule and the 1-based manifest line
number (the header is line 1, so the first data row is line 2). -/
structure NameViolation where
  kind : ViolKind
  line : Nat
deriving DecidableEq, Repr

/-- Modelled from the spec: the four per-row structural checks of
`validate_file_name`, applied in the specified order - empty after stripping,
encoding validity, absolute path (leading `/`), reserved characters
(`*` and `|`; backslash and forward slash are allowed). Returns the first
violated category, or `none` when the row is structurally valid. -/
def structuralKind (name : List CodePoint) : Option ViolKind :=
  if stripName name = [] then some ViolKind.emptyName
  else if ¬(name.all isValidScalar) then some ViolKind.invalidEncoding
  else if name.head? = some 47 then some ViolKind.absolutePath
  else if name.any (fun c => c = 42 || c = 124) then some ViolKind.reservedChar
  else none

/-- Lookup in the first-seen map carried by the uniqueness check. -/
def findMd5 : List (List CodePoint × String) → List CodePoint → Option String
  | [], _ => none
  | (nm, m) :: rest, name => if nm = name then some m else findMd5 rest name

/-- Modelled from the spec: the violation a row triggers, given the first-seen
map `seen`: the first failed structural check, else `notUnique` when the name
was already seen with a different checksum (case-sensitive exact comparison). -/
def violKindAt (seen : List (List CodePoint × String)) (row : ManifestRow) : Option ViolKind :=
  match structuralKind row.fileName with
  | some k => some k
  | none =>
    match findMd5 seen row.fileName with
    | some m => if m = row.md5sum then none else some ViolKind.notUnique
    | none => none

/-- Modelled from the spec: record a structurally valid row's name and checksum
the first time the name appears. -/
def updateSeen (seen : List (List CodePoint × String)) (row : ManifestRow) :
    List (List CodePoint × String) :=
  match structuralKind row.fileName with
  | some _ => seen
  | none =>
    match findMd5 seen row.fileName with
    | some _ => seen
    | none => seen ++ [(row.fileName, row.md5sum)]

/-- Modelled from the spec: the validation loop - every row is checked, one
error entry is emitted per violating row, and the loop never stops early. -/
def validateRows (seen : List (List CodePoint × String)) (line : Nat) :
    List ManifestRow → List NameViolation
  | [] => []
  | row :: rest =>
    (match violKindAt seen row with
     | some k => [⟨k, line⟩]
     | none => []) ++ validateRows (updateSeen seen row) (line + 1) rest

/-- Modelled from the spec: `FileValidator.validate_file_name` - run the loop
on the manifest rows (data rows start at line 2), log all violations, and
return `True` iff none was found. The boolean and the error log are returned
as a pair. -/
def validate_file_name (rows : List ManifestRow) : Bool × List NameViolation :=
  let errs := validateRows [] 2 rows
  (errs.isEmpty, errs)

/-!
Declarative reference semantics for the validator: the violation a row
triggers is re-expressed against the plain prefix of earlier rows, with no
seen-map accumulator, and the loop is proved equivalent to it.
-/

/-- The first structurally valid earlier row carrying the given name. -/
def firstValidOcc : List ManifestRow → List CodePoint → Option ManifestRow
  | [], _ => none
  | r :: rest, name =>
    if structuralKind r.fileName = none ∧ r.fileName = name then some r
    else firstValidOcc rest name

/-- The violation a row triggers, phrased against the prefix `pre` of rows
before it: a structural violation, or a checksum conflict with the first
structurally valid earlier occurrence of the same name. -/
def declKind (pre : List ManifestRow) (row : ManifestRow) : Option ViolKind :=
  match structuralKind row.fileName with
  | some k => some k
  | none =>
    match firstValidOcc pre row.fileName with
    | some r0 => if r0.md5sum = row.md5sum then none else some ViolKind.notUnique
    | none => none

/-- The declarative list of error entries. -/
def declList (pre : List ManifestRow) (line : Nat) : List ManifestRow → List NameViolation
  | [] => []
  | row :: rest =>
    (match declKind pre row with
     | some k => [⟨k, line⟩]
     | none => []) ++ declList (pre ++ [row]) (line + 1) rest

/-- The number of violating rows, counted declaratively. -/
def countViol (pre : List ManifestRow) : List ManifestRow → Nat
  | [] => 0
  | row :: rest => (if (declKind pre row).isSome then 1 else 0) + countViol (pre ++ [row]) rest

/-- The 0-based index of the first violating row, counted declaratively. -/
def firstViolIdx (pre : List ManifestRow) : List ManifestRow → Option Nat
  | [] => none
  | row :: rest =>
    if (declKind pre row).isSome then some 0
    else (firstViolIdx (pre ++ [row]) rest).map (· + 1)

/-!
Section: pure reference semantics for the extraction loop.
-/

/-- The dedup-key version as a pure function; agrees with `keyVersion`
whenever the latter succeeds. -/
def pureKeyVersion (v : Option String) : String :=
  match keyVersion v with
  | .ok s => s
  | .error _ => ""

/-- The dedup key of a record, as a pure function. -/
def pureKey (item : STSRecord) : PropKey :=
  (item.property, normModel item.model, pureKeyVersion item.version)

/-- First-occurrence filter: keep each record whose dedup key has not been
seen before, in order. -/
def keptItems (seen : List PropKey) : List STSRecord → List STSRecord
  | [] => []
  | item :: rest =>
    if pureKey item ∈ seen then keptItems seen rest
    else item :: keptItems (seen ++ [pureKey item]) rest

/-- Compose a property record for every item, propagating the first fault. -/
def composeAll : List STSRecord → Except PyErr (List PropertyRecord)
  | [] => .ok []
  | item :: rest =>
    match compose_property_record item with
    | .error e => .error e
    | .ok r =>
      match composeAll rest with
      | .error e => .error e
      | .ok rs => .ok (r :: rs)

/-- Accumulate, across a record list, the set-insertions of the elements each
record generates. -/
def accumBy {α : Type} [DecidableEq α] (f : STSRecord → List α) (acc : List α) :
    List STSRecord → List α
  | [] => acc
  | item :: rest => accumBy f (setInsertAll acc (f item)) rest

/-- The storage calls the pull issues, determined by the retrieved triple
alone (claim C3, amended): nothing on a retrieval fault or when no property
record exists; otherwise the upsert, then - iff the synonym set is non-empty -
the synonym insert, then - iff the concept-code set is non-empty - the
concept-code insert. The DAO's answers play no role. -/
def expectedStorageCalls (retrieved : Except PyErr PullerOutput) : List StorageCall :=
  match retrieved with
  | .error _ => []
  | .ok (p, s, c) =>
    if emptyOpt p then []
    else
      StorageCall.upsertPropertyPv (p.getD []) ::
        (if emptyOpt s then []
         else
           StorageCall.insertSynonyms (s.getD []) ::
             (if emptyOpt c then [] else [StorageCall.insertConceptCodes (c.getD [])]))

/-- Follows the spec's words for claim C6 ("a property field that is present
and not the sentinel \x22null\x22"), for comparison with the source's filter
`usableProperty`. -/
def specUsableProperty (r : STSRecord) : Prop :=
  r.property.isSome ∧ r.property ≠ some "null"

/-!
Section: concrete inputs used by counterexamples and witnesses.
-/

/-- A record whose property field is present but empty: kept by the spec's
reading of the filter, discarded by the code's truthiness filter. -/
def recEmptyProp : STSRecord := { property := some "" }

/-- A record whose SECOND permissible-value entry carries a synonym while the
first carries none: the line-158 guard skips synonym extraction entirely. -/
def recSynSecond : STSRecord :=
  { property := some "P", model := some "M", version := some "1.0",
    permissibleValues := some
      [{ value := some (PyVal.str "a") },
       { value := some (PyVal.str "b"), synonyms := some ["syn1"] }] }

/-- A record carrying a synonym and a concept code on its first entry. -/
def recFull : STSRecord :=
  { property := some "P", model := some "M", version := some "1.0",
    permissibleValues := some
      [{ value := some (PyVal.str "v"), synonyms := some ["syn"],
         conceptCode := some "C123" }] }

/-- A DAO whose upsert reports failure and whose inserts succeed. -/
def daoFail : DaoBehavior :=
  { upsertPropertyPvResult := (false, "boom"),
    insertSynonymsResult := some (), insertConceptCodesResult := some () }

/-- A DAO that answers success everywhere. -/
def daoNeutral : DaoBehavior :=
  { upsertPropertyPvResult := (true, ""),
    insertSynonymsResult := some (), insertConceptCodesResult := some () }

/-- Spec Example 5: two records with the same key but different PV payloads. -/
def recKeyA : STSRecord :=
  { property := some "P", model := some "M", version := some "1.0",
    permissibleValues := some [{ value := some (PyVal.str "a") }] }

/-- Second record of spec Example 5. -/
def recKeyB : STSRecord :=
  { property := some "P", model := some "M", version := some "1.0",
    permissibleValues := some [{ value := some (PyVal.str "b") }] }

/-- Spec Example 4: a URL-valued permissible value. -/
def recUrl : STSRecord :=
  { property := some "P", model := some "M", version := some "1.2.beta",
    permissibleValues := some [{ value := some (PyVal.str "http://x") }] }

/-- Manifest rows of the claim C7 example that passes: the same name `"a"`
twice with identical checksums. -/
def rowsSameMd5 : List ManifestRow := [⟨[97], "1"⟩, ⟨[97], "1"⟩]

/-- Manifest rows of the claim C7 example that fails: the same name `"a"`
twice with different checksums. -/
def rowsDiffMd5 : List ManifestRow := [⟨[97], "1"⟩, ⟨[97], "2"⟩]

/-!
Section: validator lemmas.
-/

theorem firstValidOcc_append (pre : List ManifestRow) (row : ManifestRow) (name : List CodePoint) :
    firstValidOcc (pre ++ [row]) name =
      match firstValidOcc pre name with
      | some r0 => some r0
      | none =>
        if structuralKind row.fileName = none ∧ row.fileName = name then some row else none := by
  induction pre with
  | nil => simp [firstValidOcc]
  | cons r rest ih =>
    simp only [List.cons_append, firstValidOcc]
    by_cases h : structuralKind r.fileName = none ∧ r.fileName = name
    · rw [if_pos h, if_pos h]
    · rw [if_neg h, if_neg h]
      simp only [List.append_eq]
      exact ih

theorem findMd5_append (seen : List (List CodePoint × String)) (nm : List CodePoint) (m : String)
    (name : List CodePoint) :
    findMd5 (seen ++ [(nm, m)]) name =
      match findMd5 seen name with
      | some x => some x
      | none => if nm = name then some m else none := by
  induction seen with
  | nil => simp [findMd5]
  | cons p rest ih =>
    obtain ⟨nm0, m0⟩ := p
    simp only [List.cons_append, findMd5]
    by_cases h : nm0 = name
    · simp [h]
    · simp [h, ih]

theorem findMd5_updateSeen (seen : List (List CodePoint × String)) (pre : List ManifestRow)
    (row : ManifestRow)
    (h : ∀ n, findMd5 seen n = (firstValidOcc pre n).map (fun r => r.md5sum))
    (n : List CodePoint) :
    findMd5 (updateSeen seen row) n = (firstValidOcc (pre ++ [row]) n).map (fun r => r.md5sum) := by
  rw [firstValidOcc_append]
  cases hs : structuralKind row.fileName with
  | some k =>
    simp only [updateSeen, hs]
    rw [h n]
    cases hfo : firstValidOcc pre n with
    | some r0 => simp
    | none => simp
  | none =>
    cases hf : findMd5 seen row.fileName with
    | some m0 =>
      simp only [updateSeen, hs, hf]
      rw [h n]
      cases hfo : firstValidOcc pre n with
      | some r0 => simp
      | none =>
        by_cases hn : row.fileName = n
        · exfalso
          have hx := h row.fileName
          rw [hf, hn, hfo] at hx
          simp at hx
        · simp [hn]
    | none =>
      simp only [updateSeen, hs, hf]
      rw [findMd5_append, h n]
      cases hfo : firstValidOcc pre n with
      | some r0 => simp
      | none =>
        by_cases hn : row.fileName = n
        · simp [hn]
        · simp [hn]

theorem validateRows_eq_declList :
    ∀ (rows pre : List ManifestRow) (seen : List (List CodePoint × String)) (line : Nat),
      (∀ n, findMd5 seen n = (firstValidOcc pre n).map (fun r => r.md5sum)) →
      validateRows seen line rows = declList pre line rows := by
  intro rows
  induction rows with
  | nil => intro pre seen line _h; simp [validateRows, declList]
  | cons row rest ih =>
    intro pre seen line h
    have hk : violKindAt seen row = declKind pre row := by
      unfold violKindAt declKind
      cases hs : structuralKind row.fileName with
      | some k => rfl
      | none =>
        rw [h row.fileName]
        cases hfo : firstValidOcc pre row.fileName with
        | some r0 => simp
        | none => simp
    simp only [validateRows, declList, hk]
    rw [ih (pre ++ [row]) (updateSeen seen row) (line + 1)
      (fun n => findMd5_updateSeen seen pre row h n)]

theorem declList_length :
    ∀ (rows pre : List ManifestRow) (line : Nat),
      (declList pre line rows).length = countViol pre rows := by
  intro rows
  induction rows with
  | nil => intro pre line; simp [declList, countViol]
  | cons row rest ih =>
    intro pre line
    simp only [declList, countViol, List.length_append]
    cases hk : declKind pre row <;> simp [ih]

/-- The checksum condition a structurally valid row must satisfy against the
earlier rows: agree with the first structurally valid earlier occurrence of
its name, when there is one. -/
def nameMd5Ok (pre : List ManifestRow) (row : ManifestRow) : Prop :=
  ∀ r0, firstValidOcc pre row.fileName = some r0 → r0.md5sum = row.md5sum

theorem declKind_none_iff (pre : List ManifestRow) (row : ManifestRow)
    (hrow : structuralKind row.fileName = none) :
    declKind pre row = none ↔ nameMd5Ok pre row := by
  unfold declKind nameMd5Ok
  rw [hrow]
  cases hfo : firstValidOcc pre row.fileName with
  | some r0 =>
    by_cases he : r0.md5sum = row.md5sum
    · simp only [he, if_pos]
      constructor
      · intro _ r1 h1
        rw [Option.some.injEq] at h1
        rw [← h1]
        exact he
      · intro _
        trivial
    · simp only [he, if_neg]
      constructor
      · intro hx
        exact absurd hx (by simp)
      · intro hx
        exact absurd (hx r0 rfl) he
  | none =>
    simp

theorem nameMd5Ok_append (pre : List ManifestRow) (row x : ManifestRow)
    (hrow : structuralKind row.fileName = none) (hok : nameMd5Ok pre row) :
    nameMd5Ok (pre ++ [row]) x ↔
      (nameMd5Ok pre x ∧ (row.fileName = x.fileName → row.md5sum = x.md5sum)) := by
  unfold nameMd5Ok
  cases hfo : firstValidOcc pre x.fileName with
  | some r0 =>
    constructor
    · intro h
      have h0 : r0.md5sum = x.md5sum := by
        apply h r0
        rw [firstValidOcc_append, hfo]
      refine ⟨fun r1 h1 => ?_, fun hn => ?_⟩
      · rw [Option.some.injEq] at h1
        rw [← h1]
        exact h0
      · have h2 : r0.md5sum = row.md5sum := hok r0 (by rw [hn]; exact hfo)
        rw [← h2]
        exact h0
    · intro h r1 h1
      simp only [firstValidOcc_append, hfo] at h1
      rw [Option.some.injEq] at h1
      rw [← h1]
      exact h.1 r0 rfl
  | none =>
    constructor
    · intro h
      refine ⟨fun r1 h1 => ?_, fun hn => ?_⟩
      · exact absurd h1 (by simp)
      · refine h row ?_
        rw [firstValidOcc_append, hfo]
        exact if_pos ⟨hrow, hn⟩
    · intro h r1 h1
      simp only [firstValidOcc_append, hfo] at h1
      by_cases hn : row.fileName = x.fileName
      · rw [if_pos ⟨hrow, hn⟩, Option.some.injEq] at h1
        rw [← h1]
        exact h.2 hn
      · rw [if_neg (by intro hc; exact hn hc.2)] at h1
        exact absurd h1 (by simp)

theorem declList_nil_iff :
    ∀ (rows pre : List ManifestRow) (line : Nat),
      (∀ r ∈ rows, structuralKind r.fileName = none) →
      (declList pre line rows = [] ↔
        ((∀ r ∈ rows, nameMd5Ok pre r) ∧
          rows.Pairwise fun a b => a.fileName = b.fileName → a.md5sum = b.md5sum)) := by
  intro rows
  induction rows with
  | nil =>
    intro pre line _
    simp [declList]
  | cons row rest ih =>
    intro pre line hall
    have hrow : structuralKind row.fileName = none := hall row (by simp)
    have hrest : ∀ r ∈ rest, structuralKind r.fileName = none :=
      fun r hr => hall r (by simp [hr])
    have hsplit : declList pre line (row :: rest) = [] ↔
        (declKind pre row = none ∧ declList (pre ++ [row]) (line + 1) rest = []) := by
      simp only [declList]
      cases declKind pre row <;> simp
    rw [hsplit, declKind_none_iff pre row hrow, ih (pre ++ [row]) (line + 1) hrest,
      List.pairwise_cons]
    constructor
    · intro ⟨hok, hrest2, hpw⟩
      refine ⟨?_, ?_, hpw⟩
      · intro r hr
        rcases List.mem_cons.mp hr with h | h
        · rw [h]; exact hok
        · exact ((nameMd5Ok_append pre row r hrow hok).mp (hrest2 r h)).1
      · intro x hx
        exact ((nameMd5Ok_append pre row x hrow hok).mp (hrest2 x hx)).2
    · intro ⟨hmem, hrel, hpw⟩
      have hok : nameMd5Ok pre row := hmem row (by simp)
      refine ⟨hok, ?_, hpw⟩
      intro x hx
      exact (nameMd5Ok_append pre row x hrow hok).mpr
        ⟨hmem x (by simp [hx]), hrel x hx⟩

theorem declKind_of_valid (pre : List ManifestRow) (row : ManifestRow)
    (hrow : structuralKind row.fileName = none) :
    declKind pre row = none ∨ declKind pre row = some ViolKind.notUnique := by
  unfold declKind
  rw [hrow]
  cases firstValidOcc pre row.fileName with
  | none => simp
  | some r0 =>
    by_cases he : r0.md5sum = row.md5sum
    · simp [he]
    · simp [he]

theorem declList_head_all_valid :
    ∀ (rows pre : List ManifestRow) (line : Nat),
      (∀ r ∈ rows, structuralKind r.fileName = none) →
      (declList pre line rows).head? =
        (firstViolIdx pre rows).map (fun i => (⟨ViolKind.notUnique, line + i⟩ : NameViolation)) := by
  intro rows
  induction rows with
  | nil =>
    intro pre line _
    simp [declList, firstViolIdx]
  | cons row rest ih =>
    intro pre line hall
    have hrow : structuralKind row.fileName = none := hall row (by simp)
    have hrest : ∀ r ∈ rest, structuralKind r.fileName = none :=
      fun r hr => hall r (by simp [hr])
    rcases declKind_of_valid pre row hrow with hk | hk
    · simp only [declList, firstViolIdx, hk, Option.isSome_none, Bool.false_eq_true,
        if_false, List.nil_append]
      rw [ih (pre ++ [row]) (line + 1) hrest]
      cases hfi : firstViolIdx (pre ++ [row]) rest with
      | none => simp
      | some j =>
        have hadd : line + 1 + j = line + (j + 1) := by omega
        simp [hfi, hadd]
    · simp [declList, firstViolIdx, hk]

/-!
Section: set-insertion and dedup lemmas.
-/

theorem mem_setInsert {α : Type} [DecidableEq α] (acc : List α) (x y : α) :
    y ∈ setInsert acc x ↔ y ∈ acc ∨ y = x := by
  unfold setInsert
  by_cases h : x ∈ acc
  · simp only [if_pos h]
    constructor
    · exact Or.inl
    · rintro (hy | rfl)
      · exact hy
      · exact h
  · simp [if_neg h]

theorem nodup_setInsert {α : Type} [DecidableEq α] (acc : List α) (x : α)
    (h : acc.Nodup) : (setInsert acc x).Nodup := by
  unfold setInsert
  by_cases hx : x ∈ acc
  · simpa [hx]
  · simp [hx, List.nodup_append, h]

theorem mem_setInsertAll {α : Type} [DecidableEq α] :
    ∀ (todo acc : List α) (y : α), y ∈ setInsertAll acc todo ↔ y ∈ acc ∨ y ∈ todo := by
  intro todo
  induction todo with
  | nil => intro acc y; simp [setInsertAll]
  | cons x xs ih =>
    intro acc y
    simp only [setInsertAll]
    rw [ih (setInsert acc x) y, mem_setInsert, List.mem_cons]
    tauto

theorem nodup_setInsertAll {α : Type} [DecidableEq α] :
    ∀ (todo acc : List α), acc.Nodup → (setInsertAll acc todo).Nodup := by
  intro todo
  induction todo with
  | nil => intro acc h; simpa [setInsertAll]
  | cons x xs ih =>
    intro acc h
    simp only [setInsertAll]
    exact ih _ (nodup_setInsert acc x h)

theorem mem_accumBy {α : Type} [DecidableEq α] (f : STSRecord → List α) :
    ∀ (items : List STSRecord) (acc : List α) (y : α),
      y ∈ accumBy f acc items ↔ y ∈ acc ∨ ∃ it ∈ items, y ∈ f it := by
  intro items
  induction items with
  | nil => intro acc y; simp [accumBy]
  | cons it rest ih =>
    intro acc y
    simp only [accumBy]
    rw [ih (setInsertAll acc (f it)) y, mem_setInsertAll]
    constructor
    · rintro ((hy | hy) | ⟨x, hx, hy⟩)
      · exact Or.inl hy
      · exact Or.inr ⟨it, by simp, hy⟩
      · exact Or.inr ⟨x, by simp [hx], hy⟩
    · rintro (hy | ⟨x, hx, hy⟩)
      · exact Or.inl (Or.inl hy)
      · rcases List.mem_cons.mp hx with rfl | hx2
        · exact Or.inl (Or.inr hy)
        · exact Or.inr ⟨x, hx2, hy⟩

theorem nodup_accumBy {α : Type} [DecidableEq α] (f : STSRecord → List α) :
    ∀ (items : List STSRecord) (acc : List α), acc.Nodup → (accumBy f acc items).Nodup := by
  intro items
  induction items with
  | nil => intro acc h; simpa [accumBy]
  | cons it rest ih =>
    intro acc h
    simp only [accumBy]
    exact ih _ (nodup_setInsertAll _ _ h)

theorem keptItems_keys_nodup :
    ∀ (l : List STSRecord) (seen : List PropKey),
      ((keptItems seen l).map pureKey).Nodup ∧
        ∀ k ∈ (keptItems seen l).map pureKey, k ∉ seen := by
  intro l
  induction l with
  | nil => intro seen; simp [keptItems]
  | cons item rest ih =>
    intro seen
    by_cases h : pureKey item ∈ seen
    · simpa [keptItems, h] using ih seen
    · simp only [keptItems, if_neg h, List.map_cons, List.nodup_cons]
      obtain ⟨hnd, hmem⟩ := ih (seen ++ [pureKey item])
      refine ⟨⟨?_, hnd⟩, ?_⟩
      · intro hc
        exact hmem _ hc (by simp)
      · intro k hk
        rcases List.mem_cons.mp hk with rfl | hk2
        · exact h
        · intro hc
          exact hmem k hk2 (by simp [hc])

theorem mem_keptItems_keys :
    ∀ (l : List STSRecord) (seen : List PropKey) (k : PropKey), k ∉ seen →
      (k ∈ (keptItems seen l).map pureKey ↔ k ∈ l.map pureKey) := by
  intro l
  induction l with
  | nil => intro seen k _; simp [keptItems]
  | cons item rest ih =>
    intro seen k hk
    by_cases h : pureKey item ∈ seen
    · have hne : k ≠ pureKey item := fun hc => hk (hc ▸ h)
      simp only [keptItems, if_pos h, List.map_cons, List.mem_cons]
      rw [ih seen k hk]
      constructor
      · exact Or.inr
      · rintro (hc | hc)
        · exact absurd hc hne
        · exact hc
    · by_cases he : k = pureKey item
      · subst he
        simp [keptItems, if_neg h]
      · simp only [keptItems, if_neg h, List.map_cons, List.mem_cons]
        have hk2 : k ∉ seen ++ [pureKey item] := by simp [hk, he]
        rw [ih (seen ++ [pureKey item]) k hk2]

/-!
Section: extraction-loop lemmas.
-/

theorem pureKey_of_ok (item : STSRecord) (v : String) (h : keyVersion item.version = .ok v) :
    pureKey item = (item.property, normModel item.model, v) := by
  unfold pureKey pureKeyVersion
  rw [h]

theorem procStep_ok_keyVersion (cdeOnly : Bool) (st st1 : ProcState) (item : STSRecord)
    (h : procStep cdeOnly st item = .ok st1) :
    ∃ v, keyVersion item.version = .ok v := by
  unfold procStep at h
  cases hkv : keyVersion item.version with
  | error e => simp [hkv] at h
  | ok v => exact ⟨v, rfl⟩

theorem procAll_ok_keyVersion (cdeOnly : Bool) :
    ∀ (items : List STSRecord) (st st1 : ProcState),
      procAll cdeOnly st items = .ok st1 →
      ∀ r ∈ items, ∃ v, keyVersion r.version = .ok v := by
  intro items
  induction items with
  | nil =>
    intro st st1 _ r hr
    exact absurd hr (by simp)
  | cons item rest ih =>
    intro st st1 h r hr
    unfold procAll at h
    cases hps : procStep cdeOnly st item with
    | error e => simp [hps] at h
    | ok st2 =>
      simp only [hps] at h
      rcases List.mem_cons.mp hr with rfl | hr2
      · exact procStep_ok_keyVersion cdeOnly st st2 r hps
      · exact ih st2 st1 h r hr2

theorem procAll_error_of_bad (cdeOnly : Bool) :
    ∀ (items : List STSRecord) (st : ProcState) (r : STSRecord) (e0 : PyErr),
      r ∈ items → keyVersion r.version = .error e0 →
      ∃ e, procAll cdeOnly st items = .error e := by
  intro items
  induction items with
  | nil =>
    intro st r e0 hr _
    exact absurd hr (by simp)
  | cons item rest ih =>
    intro st r e0 hr hbad
    cases hps : procStep cdeOnly st item with
    | error e => exact ⟨e, by simp [procAll, hps]⟩
    | ok st2 =>
      rcases List.mem_cons.mp hr with rfl | hr2
      · obtain ⟨v, hv⟩ := procStep_ok_keyVersion cdeOnly st st2 r hps
        rw [hv] at hbad
        exact absurd hbad (by simp)
      · obtain ⟨e, he⟩ := ih st2 r e0 hr2 hbad
        exact ⟨e, by simp [procAll, hps, he]⟩

theorem procAll_char (cdeOnly : Bool) :
    ∀ (items : List STSRecord) (st st1 : ProcState),
      procAll cdeOnly st items = .ok st1 →
      (∃ newRecs, composeAll (keptItems st.propertySet items) = .ok newRecs ∧
        st1.propertyRecords = st.propertyRecords ++ newRecs) ∧
      st1.propertySet = st.propertySet ++ (keptItems st.propertySet items).map pureKey ∧
      st1.synonymSet =
        accumBy synonymPairsOf st.synonymSet
          (if cdeOnly then [] else (keptItems st.propertySet items).filter synGuard) ∧
      st1.conceptCodeSet =
        accumBy conceptTuplesOf st.conceptCodeSet
          (if cdeOnly then [] else (keptItems st.propertySet items).filter ccGuard) := by
  intro items
  induction items with
  | nil =>
    intro st st1 h
    simp only [procAll, Except.ok.injEq] at h
    subst h
    refine ⟨⟨[], by simp [keptItems, composeAll], by simp⟩, by simp [keptItems], ?_, ?_⟩
    · cases cdeOnly <;> simp [keptItems, accumBy]
    · cases cdeOnly <;> simp [keptItems, accumBy]
  | cons item rest ih =>
    intro st st1 h
    unfold procAll at h
    cases hps : procStep cdeOnly st item with
    | error e => simp [hps] at h
    | ok st2 =>
      simp only [hps] at h
      unfold procStep at hps
      cases hkv : keyVersion item.version with
      | error e => simp [hkv] at hps
      | ok v =>
        simp only [hkv] at hps
        have hpk : pureKey item = (item.property, normModel item.model, v) :=
          pureKey_of_ok item v hkv
        by_cases hmem : (item.property, normModel item.model, v) ∈ st.propertySet
        · rw [if_pos hmem, Except.ok.injEq] at hps
          subst hps
          have hkept : keptItems st.propertySet (item :: rest) =
              keptItems st.propertySet rest := by
            simp only [keptItems, hpk, if_pos hmem]
          rw [hkept]
          exact ih st st1 h
        · rw [if_neg hmem] at hps
          cases hcp : compose_property_record item with
          | error e => simp [hcp] at hps
          | ok precord =>
            simp only [hcp] at hps
            have hkept : keptItems st.propertySet (item :: rest) =
                item :: keptItems (st.propertySet ++ [pureKey item]) rest := by
              simp only [keptItems, hpk, if_neg hmem]
            rw [hkept]
            cases cdeOnly with
            | true =>
              rw [if_pos rfl, Except.ok.injEq] at hps
              obtain ⟨⟨newRecs, hca, hpr⟩, hset, hsyn, hcc⟩ := ih st2 st1 h
              rw [← hps] at hca hpr hset hsyn hcc
              simp only at hca hpr hset hsyn hcc
              rw [← hpk] at hca hset
              refine ⟨⟨precord :: newRecs, ?_, ?_⟩, ?_, ?_, ?_⟩
              · simp only [composeAll, hcp, hca]
              · rw [hpr]
                simp
              · rw [hset, List.map_cons]
                simp
              · simpa using hsyn
              · simpa using hcc
            | false =>
              rw [if_neg (by simp), Except.ok.injEq] at hps
              obtain ⟨⟨newRecs, hca, hpr⟩, hset, hsyn, hcc⟩ := ih st2 st1 h
              rw [← hps] at hca hpr hset hsyn hcc
              simp only at hca hpr hset hsyn hcc
              rw [← hpk] at hca hset hsyn hcc
              refine ⟨⟨precord :: newRecs, ?_, ?_⟩, ?_, ?_, ?_⟩
              · simp only [composeAll, hcp, hca]
              · rw [hpr]
                simp
              · rw [hset, List.map_cons]
                simp
              · rw [hsyn]
                simp only [Bool.false_eq_true, if_false]
                by_cases hsg : synGuard item
                · rw [if_pos hsg, List.filter_cons_of_pos hsg]
                  simp only [accumBy, compose_synonym_record]
                · rw [if_neg hsg, List.filter_cons_of_neg (by simp [hsg])]
              · rw [hcc]
                simp only [Bool.false_eq_true, if_false]
                by_cases hcg : ccGuard item
                · rw [if_pos hcg, List.filter_cons_of_pos hcg]
                  simp only [accumBy, compose_concept_code_record]
                · rw [if_neg hcg, List.filter_cons_of_neg (by simp [hcg])]

/-- Strip a value when it is a string (the shape of a successful `stripAll`). -/
def stripStrVal : PyVal → PyVal
  | .str s => .str (pyStrip s)
  | .int n => .int n

theorem stripAll_all_str :
    ∀ (l : List PyVal), (∀ v ∈ l, ∃ s, v = PyVal.str s) →
      stripAll l = .ok (l.map stripStrVal) := by
  intro l
  induction l with
  | nil => intro _; simp [stripAll]
  | cons v rest ih =>
    intro h
    obtain ⟨s, hs⟩ := h v (by simp)
    subst hs
    have hrest := ih (fun x hx => h x (by simp [hx]))
    simp [stripAll, hrest, stripStrVal]

theorem collectedVals_ne_nil :
    ∀ (entries : List PVEntry), entries.any entryTruthyVal = true →
      collectedVals entries ≠ [] := by
  intro entries
  induction entries with
  | nil => intro h; simp at h
  | cons e rest ih =>
    intro h
    simp only [List.any_cons, Bool.or_eq_true] at h
    rcases h with h | h
    · unfold entryTruthyVal at h
      cases hv : e.value with
      | none => rw [hv] at h; exact absurd h (by simp)
      | some v => simp [collectedVals, List.filterMap_cons, hv]
    · have hr := ih h
      unfold collectedVals at hr ⊢
      simp only [List.filterMap_cons]
      cases e.value with
      | none => exact hr
      | some v => simp

theorem keyVersion_ok_shape (ver : Option String) (v : String) (h : keyVersion ver = .ok v) :
    ∃ s, ver = some s ∧ s ≠ "null" ∧ leadingNumDot s ≠ "" := by
  cases ver with
  | none => simp [keyVersion] at h
  | some s =>
    simp only [keyVersion] at h
    by_cases h1 : s = "" ∨ s = "null"
    · rw [if_pos h1] at h
      exact absurd h (by simp)
    · rw [if_neg h1] at h
      by_cases h2 : leadingNumDot s = ""
      · rw [if_pos h2] at h
        exact absurd h (by simp)
      · exact ⟨s, rfl, fun hc => h1 (Or.inr hc), h2⟩

theorem process_ok_char (stsResults : List STSRecord) (cdeOnly : Bool) (out : PullerOutput)
    (h : process_sts_property_pv stsResults cdeOnly = .ok out)
    (hne : stsResults.filter usableProperty ≠ []) :
    ∃ st1, procAll cdeOnly ⟨[], [], [], []⟩ (stsResults.filter usableProperty) = .ok st1 ∧
      out = (some st1.propertyRecords, some st1.synonymSet, some st1.conceptCodeSet) := by
  unfold process_sts_property_pv at h
  have hres : ¬stsResults.isEmpty = true := by
    intro hc
    rw [List.isEmpty_iff] at hc
    subst hc
    simp at hne
  rw [if_neg hres] at h
  have hfil : ¬(stsResults.filter usableProperty).isEmpty = true := by
    intro hc
    rw [List.isEmpty_iff] at hc
    exact hne hc
  rw [if_neg hfil] at h
  cases hp : procAll cdeOnly ⟨[], [], [], []⟩ (stsResults.filter usableProperty) with
  | error e =>
    rw [hp] at h
    exact absurd h (by simp)
  | ok st1 =>
    rw [hp] at h
    rw [Except.ok.injEq] at h
    exact ⟨st1, rfl, h.symm⟩

theorem process_error_of_bad_version (results : List STSRecord) (cdeOnly : Bool)
    (r : STSRecord) (hr : r ∈ results.filter usableProperty) (e0 : PyErr)
    (hbad : keyVersion r.version = .error e0) :
    ∃ e, process_sts_property_pv results cdeOnly = .error e := by
  have hne : results.filter usableProperty ≠ [] := by
    intro hc
    rw [hc] at hr
    exact absurd hr (by simp)
  have hres : ¬results.isEmpty = true := by
    intro hc
    rw [List.isEmpty_iff] at hc
    subst hc
    simp at hr
  have hfil : ¬(results.filter usableProperty).isEmpty = true := by
    intro hc
    rw [List.isEmpty_iff] at hc
    exact hne hc
  obtain ⟨e, he⟩ :=
    procAll_error_of_bad cdeOnly (results.filter usableProperty) ⟨[], [], [], []⟩ r e0 hr hbad
  refine ⟨e, ?_⟩
  unfold process_sts_property_pv
  rw [if_neg hres, if_neg hfil, he]

theorem process_three_nones_iff (results : List STSRecord) (cdeOnly : Bool) :
    process_sts_property_pv results cdeOnly = .ok (none, none, none) ↔
      (results = [] ∨ results.filter usableProperty = []) := by
  constructor
  · intro h
    by_contra hc
    push_neg at hc
    obtain ⟨_, h2⟩ := hc
    obtain ⟨st1, _, hout⟩ := process_ok_char results cdeOnly (none, none, none) h h2
    simp at hout
  · intro h
    rcases h with rfl | h
    · rfl
    · unfold process_sts_property_pv
      by_cases hres : results.isEmpty = true
      · rw [if_pos hres]
      · rw [if_neg hres, if_pos (by rw [List.isEmpty_iff]; exact h)]

/-- Claim C5: version normalization takes the leading digits-and-dots prefix of
the raw version string, both for the dedup key (line 148) and for the stored
record (line 192), and fails - the fault propagating out of the extraction -
exactly when the raw version string has no such prefix (first character
neither a digit nor a dot). The hypotheses restrict to a genuine raw version
string, i.e. one that is not replaced by `None` beforehand. -/
theorem version_normalization_spec (s : String) (h1 : s ≠ "") (h2 : s ≠ "null") :
    (leadingNumDot s ≠ "" →
      keyVersion (some s) = .ok (leadingNumDot s) ∧
        composeVersion (some s) = .ok (some (leadingNumDot s))) ∧
    (leadingNumDot s = "" →
      keyVersion (some s) = .error PyErr.attributeError ∧
        composeVersion (some s) = .error PyErr.attributeError) ∧
    (∀ (results : List STSRecord) (cdeOnly : Bool) (r : STSRecord),
      r ∈ results.filter usableProperty → r.version = some s → leadingNumDot s = "" →
      ∃ e, process_sts_property_pv results cdeOnly = .error e) := by
  have hor : ¬(s = "" ∨ s = "null") := by
    rintro (rfl | rfl)
    · exact h1 rfl
    · exact h2 rfl
  refine ⟨fun hp => ⟨?_, ?_⟩, fun hp => ⟨?_, ?_⟩, ?_⟩
  · simp only [keyVersion, if_neg hor, if_neg hp]
  · simp only [composeVersion, if_neg hor, if_neg hp]
  · simp only [keyVersion, if_neg hor, if_pos hp]
  · simp only [composeVersion, if_neg hor, if_pos hp]
  · intro results cdeOnly r hr hv hp
    refine process_error_of_bad_version results cdeOnly r hr PyErr.attributeError ?_
    rw [hv]
    simp only [keyVersion, if_neg hor, if_pos hp]

/-- Witness for claim C5 at the spec's Example 4 version string `"1.2.beta"`,
whose numeric prefix is `"1.2."`. -/
theorem version_normalization_spec_witness :
    keyVersion (some "1.2.beta") = .ok (leadingNumDot "1.2.beta") ∧
      composeVersion (some "1.2.beta") = .ok (some (leadingNumDot "1.2.beta")) :=
  (version_normalization_spec "1.2.beta" (by decide) (by decide)).1 (by decide)

/-- Claim C10: a record that passes the property filter but whose version
field is absent or the sentinel `"null"` makes the dedup-key computation of
line 148 apply the regex to `None`, raising an unhandled fault that aborts the
whole extraction; conversely, whenever the extraction returns at all, every
filtered record carries a version string whose digits-and-dots prefix is
non-empty, i.e. one starting with a digit or a dot. -/
theorem version_required_for_output :
    (∀ (results : List STSRecord) (cdeOnly : Bool) (r : STSRecord),
      r ∈ results.filter usableProperty →
      (r.version = none ∨ r.version = some "null") →
      ∃ e, process_sts_property_pv results cdeOnly = .error e) ∧
    (∀ (results : List STSRecord) (cdeOnly : Bool) (out : PullerOutput),
      process_sts_property_pv results cdeOnly = .ok out →
      ∀ r ∈ results.filter usableProperty,
        ∃ s, r.version = some s ∧ s ≠ "null" ∧ leadingNumDot s ≠ "") := by
  constructor
  · intro results cdeOnly r hr hbad
    have hkv : keyVersion r.version = .error PyErr.typeError := by
      rcases hbad with hb | hb
      · rw [hb]
        rfl
      · rw [hb]
        decide
    exact process_error_of_bad_version results cdeOnly r hr PyErr.typeError hkv
  · intro results cdeOnly out h r hr
    have hne : results.filter usableProperty ≠ [] := by
      intro hc
      rw [hc] at hr
      exact absurd hr (by simp)
    obtain ⟨st1, hp, _⟩ := process_ok_char results cdeOnly out h hne
    obtain ⟨v, hv⟩ := procAll_ok_keyVersion cdeOnly _ _ _ hp r hr
    exact keyVersion_ok_shape r.version v hv

/-- A filtered record with no version field, used by the claim C10 witness. -/
def recNoVersion : STSRecord := { property := some "P" }

/-- Witness for claim C10: a single usable record with an absent version
aborts the extraction. -/
theorem version_required_for_output_witness :
    ∃ e, process_sts_property_pv [recNoVersion] false = .error e :=
  version_required_for_output.1 [recNoVersion] false recNoVersion (by decide) (Or.inl rfl)

/-- Claim C9: in `extract_pv_list`, if any collected value is a string
beginning with `http:` or `https:`, the whole permissible-value list of the
record is discarded (`None` is returned) and `compose_property_record` still
builds the record, with a `None` permissible-value list (provided the version
normalization itself succeeds); otherwise, when the collected values are
strings and at least one is truthy, they are returned stripped of surrounding
whitespace. -/
theorem extract_pv_list_url_rule :
    (∀ (entries : List PVEntry) (item : STSRecord) (vr : Option String),
      (collectedVals entries).any isHttpStr = true →
      extract_pv_list (some entries) = .ok none ∧
        (item.permissibleValues = some entries → composeVersion item.version = .ok vr →
          compose_property_record item = .ok ⟨item.property, item.model, vr, none⟩)) ∧
    (∀ (entries : List PVEntry),
      (collectedVals entries).any isHttpStr = false →
      entries.any entryTruthyVal = true →
      (∀ v ∈ collectedVals entries, ∃ s, v = PyVal.str s) →
      extract_pv_list (some entries) = .ok (some ((collectedVals entries).map stripStrVal))) := by
  constructor
  · intro entries item vr hhttp
    have hex : extract_pv_list (some entries) = .ok none := by
      by_cases hany : entries.any entryTruthyVal = true
      · simp only [extract_pv_list, if_pos hany, if_pos hhttp]
      · simp only [extract_pv_list, if_neg hany]
        cases entries with
        | nil => rfl
        | cons e rest =>
          simp only [List.any_cons, Bool.or_eq_true, not_or] at hany
          simp only [if_neg hany.1]
    refine ⟨hex, fun hpv hcv => ?_⟩
    simp only [compose_property_record, hcv, hpv, hex]
  · intro entries hhttp hany hstr
    simp only [extract_pv_list, if_pos hany,
      if_neg (by simp [hhttp] : ¬(collectedVals entries).any isHttpStr = true)]
    cases hcv : collectedVals entries with
    | nil => simp
    | cons v0 rest =>
      obtain ⟨s, hs⟩ := hstr v0 (by rw [hcv]; simp)
      subst hs
      have hstrip : stripAll (PyVal.str s :: rest) = .ok ((PyVal.str s :: rest).map stripStrVal) := by
        apply stripAll_all_str
        intro v hv
        apply hstr
        rw [hcv]
        exact hv
      simp [hstrip]

/-- Witness for claim C9 at the spec's Example 4 record: a single URL-valued
permissible value leads to a discarded PV list while the property record is
still composed, with a `None` PV list. -/
theorem extract_pv_list_url_rule_witness :
    extract_pv_list (some [{ value := some (PyVal.str "http://x") }]) = .ok none ∧
      compose_property_record recUrl =
        .ok ⟨some "P", some "M", some "1.2.", none⟩ := by
  have h := extract_pv_list_url_rule.1 [{ value := some (PyVal.str "http://x") }] recUrl
    (some "1.2.") (by decide)
  exact ⟨h.1, h.2 rfl (by decide)⟩

/-- Claim C6 counterexample: a record whose property field is present (`""`)
and different from the sentinel `"null"`, for which the pipeline nevertheless
returns the three-`None` tuple - the code's filter uses Python truthiness, so
it also discards an empty-string property, contradicting the claim's "present
and not the sentinel" reading of usability. -/
theorem empty_string_property_counterexample :
    retrieveAllPropertyViaAPI ["M"] [some [recEmptyProp]] = .ok (none, none, none) ∧
      specUsableProperty recEmptyProp := by
  refine ⟨by decide, by decide, by decide⟩

/-- Claim C6 (amended): the extraction pipeline returns the three-`None` tuple
exactly when the flat raw record sequence is empty or no record carries a
property field that is present, non-empty and not the sentinel `"null"`
(the filter `usableProperty`). -/
theorem three_nulls_iff_no_usable_input (pvModels : List String)
    (apiResults : List (Option (List STSRecord))) (hm : pvModels ≠ []) :
    (retrieveAllPropertyViaAPI pvModels apiResults = .ok (none, none, none) ↔
      (flattenResults apiResults = [] ∨
        (flattenResults apiResults).filter usableProperty = [])) ∧
    (∀ (results : List STSRecord) (cdeOnly : Bool),
      process_sts_property_pv results cdeOnly = .ok (none, none, none) ↔
        (results = [] ∨ results.filter usableProperty = [])) := by
  have hm2 : ¬pvModels.isEmpty = true := by
    rw [List.isEmpty_iff]
    exact hm
  constructor
  · unfold retrieveAllPropertyViaAPI
    rw [if_neg hm2]
    by_cases hfr : (flattenResults apiResults).isEmpty = true
    · rw [if_pos hfr]
      rw [List.isEmpty_iff] at hfr
      simp [hfr]
    · rw [if_neg hfr]
      rw [process_three_nones_iff]
  · exact fun results cdeOnly => process_three_nones_iff results cdeOnly

/-- Witness for claim C6 with one configured model and no API data: the
pipeline returns the three-`None` tuple and the characterization holds. -/
theorem three_nulls_iff_no_usable_input_witness :
    (["M"] : List String) ≠ [] ∧
      (retrieveAllPropertyViaAPI ["M"] [] = .ok (none, none, none) ↔
        (flattenResults ([] : List (Option (List STSRecord))) = [] ∨
          (flattenResults ([] : List (Option (List STSRecord)))).filter usableProperty = [])) :=
  ⟨by decide, (three_nulls_iff_no_usable_input ["M"] [] (by decide)).1⟩

/-- Claim C8: records sharing the dedup key `(property, model-or-none,
normalized version)` are collapsed to the first occurrence - the emitted
property records are exactly the composition of the first-seen record of each
key, in first-seen order (so the first-seen record's permissible-value payload
is retained), the kept keys are pairwise distinct, and every key occurring in
the filtered input is represented. -/
theorem property_dedup_first_occurrence (results : List STSRecord) (cdeOnly : Bool)
    (out : PullerOutput) (precs : List PropertyRecord)
    (h : process_sts_property_pv results cdeOnly = .ok out) (hp : out.1 = some precs) :
    composeAll (keptItems [] (results.filter usableProperty)) = .ok precs ∧
      ((keptItems [] (results.filter usableProperty)).map pureKey).Nodup ∧
      (∀ k, k ∈ (keptItems [] (results.filter usableProperty)).map pureKey ↔
        k ∈ (results.filter usableProperty).map pureKey) := by
  have hne : results.filter usableProperty ≠ [] := by
    intro hc
    have h0 : process_sts_property_pv results cdeOnly = .ok (none, none, none) :=
      (process_three_nones_iff results cdeOnly).mpr (Or.inr hc)
    rw [h0, Except.ok.injEq] at h
    rw [← h] at hp
    simp at hp
  obtain ⟨st1, hpa, hout⟩ := process_ok_char results cdeOnly out h hne
  have hprecs : precs = st1.propertyRecords := by
    rw [hout] at hp
    simp only [Option.some.injEq] at hp
    exact hp.symm
  obtain ⟨⟨newRecs, hca, hpr⟩, _, _, _⟩ :=
    procAll_char cdeOnly (results.filter usableProperty) ⟨[], [], [], []⟩ st1 hpa
  simp only at hca hpr
  refine ⟨?_, (keptItems_keys_nodup (results.filter usableProperty) []).1, ?_⟩
  · rw [hprecs, hpr]
    simpa using hca
  · intro k
    exact mem_keptItems_keys (results.filter usableProperty) [] k (by simp)

/-- The property record composed from the first record of spec Example 5. -/
def recKeyArec : PropertyRecord :=
  ⟨some "P", some "M", some "1.0", some [PyVal.str "a"]⟩

/-- Witness for claim C8 at spec Example 5: two records with the same dedup
key but different payloads yield exactly the first record's composition. -/
theorem property_dedup_first_occurrence_witness :
    composeAll (keptItems [] ([recKeyA, recKeyB].filter usableProperty)) = .ok [recKeyArec] :=
  (property_dedup_first_occurrence [recKeyA, recKeyB] false
    (some [recKeyArec], some [], some []) [recKeyArec] (by decide) rfl).1

/-- Claim C2 counterexample: `recSynSecond` survives the property filter and
its SECOND permissible-value entry carries the non-empty synonym list
`["syn1"]`, yet the pull emits an empty synonym set, because the guard of
line 158 looks only at the FIRST entry's synonyms. The claim predicts the
pair `("syn1", "b")` is emitted. -/
theorem synonym_first_entry_gate_counterexample :
    process_sts_property_pv [recSynSecond] false =
      .ok (some [⟨some "P", some "M", some "1.0", some [PyVal.str "a", PyVal.str "b"]⟩],
        some [], some []) ∧
      ("syn1", some (PyVal.str "b")) ∈ synonymPairsOf recSynSecond := by
  exact ⟨by decide, by decide⟩

/-- Claim C2 (amended): during one pull the emitted synonym set contains a
pair exactly when some record that (a) survives the property filter, (b) is
the first occurrence of its dedup key, and (c) whose FIRST nested entry
carries a non-empty synonym list, generates it - one `(synonym, value)` pair
per non-empty synonym of each of its entries - and the set is deduplicated by
the pair across all records of the pull. -/
theorem synonym_pairs_characterization (results : List STSRecord) (out : PullerOutput)
    (syns : List SynPair) (h : process_sts_property_pv results false = .ok out)
    (hs : out.2.1 = some syns) :
    syns.Nodup ∧
      (∀ p, p ∈ syns ↔
        ∃ item ∈ (keptItems [] (results.filter usableProperty)).filter synGuard,
          p ∈ synonymPairsOf item) := by
  have hne : results.filter usableProperty ≠ [] := by
    intro hc
    have h0 : process_sts_property_pv results false = .ok (none, none, none) :=
      (process_three_nones_iff results false).mpr (Or.inr hc)
    rw [h0, Except.ok.injEq] at h
    rw [← h] at hs
    simp at hs
  obtain ⟨st1, hpa, hout⟩ := process_ok_char results false out h hne
  have hsyns : syns = st1.synonymSet := by
    rw [hout] at hs
    simp only [Option.some.injEq] at hs
    exact hs.symm
  obtain ⟨_, _, hsyn, _⟩ :=
    procAll_char false (results.filter usableProperty) ⟨[], [], [], []⟩ st1 hpa
  simp only [Bool.false_eq_true, if_false] at hsyn
  constructor
  · rw [hsyns, hsyn]
    exact nodup_accumBy synonymPairsOf _ _ (by simp)
  · intro p
    rw [hsyns, hsyn, mem_accumBy]
    simp

/-- Witness for claim C2 at a record whose first entry carries a synonym:
the emitted synonym set is characterized as stated. -/
theorem synonym_pairs_characterization_witness :
    ([("syn", some (PyVal.str "v"))] : List SynPair).Nodup ∧
      (∀ p, p ∈ ([("syn", some (PyVal.str "v"))] : List SynPair) ↔
        ∃ item ∈ (keptItems [] ([recFull].filter usableProperty)).filter synGuard,
          p ∈ synonymPairsOf item) :=
  synonym_pairs_characterization [recFull]
    (some [⟨some "P", some "M", some "1.0", some [PyVal.str "v"]⟩],
      some [("syn", some (PyVal.str "v"))],
      some [(some "M", some "P", some (PyVal.str "v"), "C123")])
    [("syn", some (PyVal.str "v"))] (by decide) rfl

/-- Claim C3 counterexample: with a DAO whose `upsert_property_pv` reports
failure, the pull still attempts the synonym insert and the concept-code
insert - no early return happens on a storage failure. The claim predicts the
trace stops after the upsert. -/
theorem storage_failure_no_early_return_counterexample :
    daoFail.upsertPropertyPvResult.1 = false ∧
      (pull_property_pv_synonym_concept_codes ["M"] [some [recFull]] daoFail).1 =
        [StorageCall.upsertPropertyPv
            [⟨some "P", some "M", some "1.0", some [PyVal.str "v"]⟩],
          StorageCall.insertSynonyms [("syn", some (PyVal.str "v"))],
          StorageCall.insertConceptCodes [(some "M", some "P", some (PyVal.str "v"), "C123")]] := by
  exact ⟨rfl, by decide⟩

/-- Claim C3 (amended): the storage calls the pull issues are fully determined
by the retrieved triple and never by the DAO's answers: nothing is attempted
after a retrieval fault or when no property record exists; otherwise the
upsert is always issued, the synonym insert is issued iff the synonym set is
non-empty, and the concept-code insert is issued iff both the synonym and the
concept-code sets are non-empty. A failed upsert is only logged - the later
steps still run - and no compensating rollback call exists. The early returns
are driven by empty record sets alone. -/
theorem storage_calls_characterization (pvModels : List String)
    (apiResults : List (Option (List STSRecord))) (dao : DaoBehavior) :
    (pull_property_pv_synonym_concept_codes pvModels apiResults dao).1 =
      expectedStorageCalls (retrieveAllPropertyViaAPI pvModels apiResults) := by
  cases hr : retrieveAllPropertyViaAPI pvModels apiResults with
  | error e =>
    simp [pull_property_pv_synonym_concept_codes, pullBody, expectedStorageCalls, hr]
  | ok triple =>
    obtain ⟨p, s, c⟩ := triple
    by_cases hp : emptyOpt p = true
    · simp [pull_property_pv_synonym_concept_codes, pullBody, expectedStorageCalls, hr, hp]
    · by_cases hs : emptyOpt s = true
      · simp [pull_property_pv_synonym_concept_codes, pullBody, expectedStorageCalls, hr, hp, hs]
      · by_cases hc : emptyOpt c = true
        · simp [pull_property_pv_synonym_concept_codes, pullBody, expectedStorageCalls,
            hr, hp, hs, hc]
        · simp [pull_property_pv_synonym_concept_codes, pullBody, expectedStorageCalls,
            hr, hp, hs, hc]

/-- Claim C4 counterexample: with no configured model, the run's whole log
consists of two error-level entries emitted by the pull method's own handler;
no critical-level entry is ever logged, because the exception never reaches
the outer caller's `log.critical` lines. The claim predicts a critical log. -/
theorem no_model_error_not_critical_counterexample :
    (pull_pv_lists_v2 [] [] daoNeutral).2.map (fun e => e.level) =
      [LogLevel.error, LogLevel.error] ∧
      LogLevel.critical ∉ (pull_pv_lists_v2 [] [] daoNeutral).2.map (fun e => e.level) := by
  exact ⟨by decide, by decide⟩

/-- Claim C4 (amended): an empty configured model list makes
`retrieveAllPropertyViaAPI` raise `Exception("No model configured for pulling
property PVs.")`; the exception is caught one level up, inside
`pull_property_pv_synonym_concept_codes` itself (its `except Exception`
handler), logged twice at error level via `log.exception`, and the run ends
with no storage call attempted. It does not propagate to `pull_pv_lists_v2`,
whose critical-level logging is therefore never reached. -/
theorem no_model_error_handling (apiResults : List (Option (List STSRecord)))
    (dao : DaoBehavior) :
    retrieveAllPropertyViaAPI [] apiResults =
      .error (.exception "No model configured for pulling property PVs.") ∧
    "No model configured".data.isPrefixOf
      "No model configured for pulling property PVs.".data = true ∧
    pull_pv_lists_v2 [] apiResults dao =
      ([], [⟨LogLevel.error, "No model configured for pulling property PVs."⟩,
        ⟨LogLevel.error, "Failed to retrieve CDE PVs."⟩]) ∧
    (∀ entry ∈ (pull_pv_lists_v2 [] apiResults dao).2, entry.level ≠ LogLevel.critical) := by
  have h3 : pull_pv_lists_v2 [] apiResults dao =
      ([], [⟨LogLevel.error, "No model configured for pulling property PVs."⟩,
        ⟨LogLevel.error, "Failed to retrieve CDE PVs."⟩]) := rfl
  refine ⟨rfl, by decide, h3, ?_⟩
  rw [h3]
  intro entry he
  simp only [List.mem_cons, List.not_mem_nil, or_false] at he
  rcases he with rfl | rfl
  · decide
  · decide

/-- Claim C1: `validate_file_name` checks every row without short-circuiting -
it returns `True` iff zero violations exist across the entire manifest, a
manifest with N violating rows (counted declaratively by `countViol` over row
prefixes) logs exactly N error entries, zero error entries are logged when it
returns `True` (a consequence of the two facts), and the empty manifest is
valid with an empty error log. -/
theorem validate_file_name_counts_all_violations (rows : List ManifestRow) :
    ((validate_file_name rows).1 = true ↔ countViol [] rows = 0) ∧
      (validate_file_name rows).2.length = countViol [] rows ∧
      validate_file_name [] = (true, []) := by
  have hmaster : validateRows [] 2 rows = declList [] 2 rows :=
    validateRows_eq_declList rows [] [] 2 (fun n => by simp [findMd5, firstValidOcc])
  have hlen : (validate_file_name rows).2.length = countViol [] rows := by
    show (validateRows [] 2 rows).length = countViol [] rows
    rw [hmaster, declList_length]
  refine ⟨?_, hlen, rfl⟩
  have hiff : (validate_file_name rows).1 = true ↔ (validate_file_name rows).2.length = 0 := by
    show (validateRows [] 2 rows).isEmpty = true ↔ (validateRows [] 2 rows).length = 0
    simp [List.isEmpty_iff, List.length_eq_zero]
  rw [hiff, hlen]

/-- Claim C7: for a manifest whose rows all pass the structural checks, the
validator passes iff every pair of rows sharing a (case-sensitively equal)
file name carries the same checksum; when it fails, the first logged error is
`notUnique` carrying the 1-based line of the first conflicting duplicate
(data rows start at line 2); and on the claim's concrete examples,
`[("a","1"),("a","1")]` passes while `[("a","1"),("a","2")]` fails with
"Line 3". -/
theorem validate_file_name_uniqueness_check (rows : List ManifestRow)
    (hall : ∀ r ∈ rows, structuralKind r.fileName = none) :
    ((validate_file_name rows).1 = true ↔
      rows.Pairwise fun a b => a.fileName = b.fileName → a.md5sum = b.md5sum) ∧
      (validate_file_name rows).2.head? =
        (firstViolIdx [] rows).map (fun i => (⟨ViolKind.notUnique, 2 + i⟩ : NameViolation)) ∧
      validate_file_name rowsSameMd5 = (true, []) ∧
      validate_file_name rowsDiffMd5 = (false, [⟨ViolKind.notUnique, 3⟩]) := by
  have hmaster : validateRows [] 2 rows = declList [] 2 rows :=
    validateRows_eq_declList rows [] [] 2 (fun n => by simp [findMd5, firstValidOcc])
  refine ⟨?_, ?_, by decide, by decide⟩
  · show (validateRows [] 2 rows).isEmpty = true ↔ _
    rw [List.isEmpty_iff, hmaster, declList_nil_iff rows [] 2 hall]
    constructor
    · exact fun h => h.2
    · intro h
      refine ⟨fun r _ r0 h0 => ?_, h⟩
      simp [firstValidOcc] at h0
  · show (validateRows [] 2 rows).head? = _
    rw [hmaster, declList_head_all_valid rows [] 2 hall]

/-- Witness for claim C7 at the failing example `[("a","1"),("a","2")]`. -/
theorem validate_file_name_uniqueness_check_witness :
    ((validate_file_name rowsDiffMd5).1 = true ↔
      rowsDiffMd5.Pairwise fun a b => a.fileName = b.fileName → a.md5sum = b.md5sum) ∧
      (validate_file_name rowsDiffMd5).2.head? =
        (firstViolIdx [] rowsDiffMd5).map (fun i => (⟨ViolKind.notUnique, 2 + i⟩ : NameViolation)) ∧
      validate_file_name rowsSameMd5 = (true, []) ∧
      validate_file_name rowsDiffMd5 = (false, [⟨ViolKind.notUnique, 3⟩]) :=
  validate_file_name_uniqueness_check rowsDiffMd5 (by decide)
